import Mathlib

/-!
Verification development for the british-airways-reviews scraper.

The Python sources are embedded shallowly:
* `src/scraper/scrape_reviews.py` — the HTML review extractor, the per-review
  stats-table parser and the pagination logic of `main`.
* `src/scraper/pseudonymize.py` — the per-file author pseudonymizer.

HTML documents are modelled as a tree of element/text nodes mirroring the
BeautifulSoup API surface the scraper uses: `find` / `find_all` (recursive,
document order, tags only), `findChildren()` (all tag descendants, an alias of
`find_all()`), `.text` (concatenation of all descendant strings),
`.get_text(strip=True)` (concatenation of the individually stripped strings),
`.get(attr, default)` and class matching (a query string matches one token of
the whitespace-split class attribute, or the whole joined attribute).
-/

/-- HTML parse tree node: an element with a tag name, attributes (the `class`
attribute is stored raw, as written in the document) and children, or a text
node. -/
inductive Node where
  | elem (tag : String) (attrs : List (String × String)) (children : List Node)
  | text (s : String)

/-- Exceptions the Python code can raise; only these are distinguished by the
scraper's behaviour. -/
inductive PyError where
  | attributeError
  | indexError
  | valueError
deriving DecidableEq

mutual
/-- All descendant nodes (elements and text) of a node, in document (preorder)
order — the traversal order BeautifulSoup uses for `find` / `find_all`. -/
def descs : Node → List Node
  | .text _ => []
  | .elem _ _ cs => descsList cs

def descsList : List Node → List Node
  | [] => []
  | c :: cs => c :: (descs c ++ descsList cs)
end

mutual
/-- Concatenation of all descendant strings: BeautifulSoup `.text`. -/
def innerText : Node → String
  | .text s => s
  | .elem _ _ cs => textList cs

def textList : List Node → String
  | [] => ""
  | c :: cs => innerText c ++ textList cs
end

/-- Python `str.strip()` over a character list: leading and trailing
whitespace removed. -/
def trimChars (cs : List Char) : List Char :=
  ((cs.dropWhile Char.isWhitespace).reverse.dropWhile Char.isWhitespace).reverse

/-- Python `str.strip()` / the stripping BeautifulSoup applies to text. -/
def strip (s : String) : String :=
  String.mk (trimChars s.data)

mutual
/-- BeautifulSoup `.get_text(strip=True)`: each descendant string is stripped
and the results are concatenated. -/
def strippedText : Node → String
  | .text s => strip s
  | .elem _ _ cs => strippedList cs

def strippedList : List Node → String
  | [] => ""
  | c :: cs => strippedText c ++ strippedList cs
end

/-- True on element nodes; `find`/`find_all` only ever match elements. -/
def isElem : Node → Bool
  | .elem _ _ _ => true
  | .text _ => false

/-- Tag `.get(key, default)`: attribute lookup with a default. -/
def attrGet (n : Node) (key dflt : String) : String :=
  match n with
  | .elem _ attrs _ => ((attrs.find? (fun p => p.1 == key)).map (fun p => p.2)).getD dflt
  | .text _ => dflt

/-- The maximal non-empty runs of non-whitespace characters (whitespace
splitting as Python and BeautifulSoup do it), with `cur` the reversed run in
progress. -/
def wsTokensAux : List Char → List Char → List String
  | [], cur => if cur = [] then [] else [String.mk cur.reverse]
  | c :: rest, cur =>
    if c.isWhitespace then
      if cur = [] then wsTokensAux rest []
      else String.mk cur.reverse :: wsTokensAux rest []
    else wsTokensAux rest (c :: cur)

/-- The whitespace-split tokens of a raw `class` attribute value. -/
def classTokens (raw : String) : List String :=
  wsTokensAux raw.data []

/-- The tokens re-joined with single spaces (how BeautifulSoup reassembles a
multi-valued class attribute for exact-string matching). -/
def joinSp : List String → String
  | [] => ""
  | [t] => t
  | t :: ts => t ++ " " ++ joinSp ts

/-- BeautifulSoup `class_=q` matching: `q` equals one of the classes, or `q`
equals the whole (re-joined) multi-valued class attribute — the latter is how
`class_="star fill"` matches. An element without a `class` attribute never
matches. -/
def classMatch (n : Node) (q : String) : Bool :=
  let toks := classTokens (attrGet n "class" "")
  toks.contains q || q == joinSp toks

/-- Predicate for `find(tag)`. -/
def isTag (t : String) (n : Node) : Bool :=
  match n with
  | .elem tg _ _ => tg == t
  | .text _ => false

/-- Predicate for `find(tag, class_=c)`. -/
def tagClass (t c : String) (n : Node) : Bool :=
  isTag t n && classMatch n c

/-- Predicate for `find(tag, attr=v)` on a plain (non-class) attribute. -/
def tagAttr (t key v : String) (n : Node) : Bool :=
  isTag t n && (attrGet n key "" == v)

/-- BeautifulSoup `find_all`: every matching element descendant, in document
order. -/
def findAll (n : Node) (p : Node → Bool) : List Node :=
  (descs n).filter (fun m => isElem m && p m)

/-- BeautifulSoup `find`: the first matching element descendant, or None. -/
def findFirst (n : Node) (p : Node → Bool) : Option Node :=
  (findAll n p).head?

/-- Tag `.findChildren()` with no arguments: every element descendant
(`findChildren` is an alias of `find_all`, which is recursive). -/
def findChildren (n : Node) : List Node :=
  findAll n (fun _ => true)

/-- A review record: Python dict from field name to value, in insertion
order. -/
abbrev Record := List (String × String)

/-- Python dict assignment `rec[k] = v`: replace the value in place if the key
exists, otherwise append the pair. -/
def setField : Record → String → String → Record
  | [], k, v => [(k, v)]
  | p :: ps, k, v => if p.1 = k then (k, v) :: ps else p :: setField ps k v

/-- Python dict lookup `rec[k]` as an Option. -/
def getField : Record → String → Option String
  | [], _ => none
  | p :: ps, f => if p.1 = f then some p.2 else getField ps f

/-- The value of the last pair with the given key, if any: what a sequence of
dict assignments leaves behind for that key. -/
def lastLookup : List (String × String) → String → Option String
  | [], _ => none
  | p :: ps, f =>
    match lastLookup ps f with
    | some v => some v
    | none => if p.1 = f then some p.2 else none

/-! ## Field Extractor (`scrape_reviews`, lines 49–103)

One review fragment (`review_block`, an `article.list-item` sub-tree) is turned
into a `Record`.  Each helper below mirrors the corresponding lines of
`scrape_reviews.py`; fallible steps return `Except PyError`.
-/

/-- Line 53: `review_block.find("time").get("datetime", "N/A")`.  When no
`time` element exists, `find` returns None and `.get` raises
`AttributeError`; the attribute default "N/A" only covers a `time` element
that lacks a `datetime` attribute. -/
def extractDate (b : Node) : Except PyError String :=
  match findFirst b (isTag "time") with
  | none => .error .attributeError
  | some t => .ok (attrGet t "datetime" "N/A")

/-- Line 56: `review_block.find("span", itemprop="ratingValue")`. -/
def findPrimaryRating (b : Node) : Option Node :=
  findFirst b (tagAttr "span" "itemprop" "ratingValue")

/-- Line 58: `review_block.find("div", class_="rating-10")`. -/
def findSecondaryRating (b : Node) : Option Node :=
  findFirst b (tagClass "div" "rating-10")

/-- Lines 56–59: primary rating element, fallback to the secondary
rating-display element, else "N/A"; the text is stripped. -/
def extractRating (b : Node) : String :=
  match findPrimaryRating b with
  | some r => strip (innerText r)
  | none =>
    match findSecondaryRating b with
    | some r => strip (innerText r)
    | none => "N/A"

/-- Lines 62–63: `h2.text_header` text, stripped, else "N/A". -/
def extractTitle (b : Node) : String :=
  match findFirst b (tagClass "h2" "text_header") with
  | some t => strip (innerText t)
  | none => "N/A"

/-- Lines 66–67: `span[itemprop=name]` text, stripped, else "N/A". -/
def extractAuthor (b : Node) : String :=
  match findFirst b (tagAttr "span" "itemprop" "name") with
  | some a => strip (innerText a)
  | none => "N/A"

/-- Scan for the body of a match of the Python regex `(?<=\().+?(?=\))`
starting at a fixed position (the list is the text just after a "(" ): the
shortest non-empty run of non-newline characters such that the next character
is ")".  `.` does not match a newline; the run itself may contain "(" or a
leading ")". -/
def bodyScan : List Char → Option (List Char)
  | [] => none
  | c :: rest =>
    if c = '\n' then none
    else
      match rest with
      | [] => none
      | d :: _ => if d = ')' then some [c] else (bodyScan rest).map (fun b => c :: b)

/-- `re.search(r"(?<=\().+?(?=\))", s)` over the characters of `s`: try each
position left to right; a position qualifies when the previous character is
"(" and `bodyScan` completes there.  Returns the leftmost (then shortest)
match body. -/
def searchParen : List Char → Option (List Char)
  | [] => none
  | c :: rest =>
    if c = '(' then
      match bodyScan rest with
      | some b => some b
      | none => searchParen rest
    else searchParen rest

/-- Line 70: `review_block.find("h3", class_="userStatusWrapper")`. -/
def findStatus (b : Node) : Option Node :=
  findFirst b (tagClass "h3" "userStatusWrapper")

/-- Lines 70–77: the status line's stripped text is searched with
`(?<=\().+?(?=\))`; the match is the Country, else "N/A" (also when the
status line is absent). -/
def extractCountry (b : Node) : String :=
  match findStatus b with
  | none => "N/A"
  | some u =>
    match searchParen (strip (innerText u)).data with
    | some m => String.mk m
    | none => "N/A"

/-- Lines 80–81: `div[itemprop=reviewBody]` text, stripped, else "N/A". -/
def extractBody (b : Node) : String :=
  match findFirst b (tagAttr "div" "itemprop" "reviewBody") with
  | some r => strip (innerText r)
  | none => "N/A"

/-- The six core fields in the order the Python dict acquires them
(lines 50–81), given the already-computed Date value. -/
def coreRecord (b : Node) (d : String) : Record :=
  [("Date", d), ("Rating", extractRating b), ("Title", extractTitle b),
   ("Author", extractAuthor b), ("Country", extractCountry b),
   ("Review", extractBody b)]

/-- Line 94: `len(cells[1].find_all("span", class_="star fill"))` — the
number of filled-star sub-elements of a value cell.  No upper bound is
applied. -/
def starFillCount (c : Node) : Nat :=
  (findAll c (tagClass "span" "star fill")).length

/-- Lines 90–94: the stored value of a stats row — the stripped cell text,
except that the exact text "12345" is replaced by the filled-star count. -/
def statValue (c : Node) : String :=
  let v := strip (innerText c)
  if v = "12345" then toString (starFillCount c) else v

/-- The (label, value) pair a stats row would contribute: `findChildren()`
lists all element descendants; `cells[0]` is the label cell and `cells[1]`
the value cell.  None when the row has fewer than two element descendants. -/
def rowPair (r : Node) : Option (String × String) :=
  match findChildren r with
  | c0 :: c1 :: _ => some (strip (innerText c0), statValue c1)
  | _ => none

/-- Lines 85–96: the loop over `review-ratings` table rows.  A row with fewer
than two element descendants makes `cells[0]` or `cells[1]` raise
`IndexError`, which the surrounding `except AttributeError` does NOT catch. -/
def parseStats (rec : Record) : List Node → Except PyError Record
  | [] => .ok rec
  | r :: rs =>
    match findChildren r with
    | c0 :: c1 :: _ => parseStats (setField rec (strip (innerText c0)) (statValue c1)) rs
    | _ => .error .indexError

/-- Line 85: `review_block.find("table", class_="review-ratings")`. -/
def findTable (b : Node) : Option Node :=
  findFirst b (tagClass "table" "review-ratings")

/-- Line 85: `.find_all("tr")` on the ratings table. -/
def statRows (tbl : Node) : List Node :=
  findAll tbl (isTag "tr")

/-- The (label, value) pairs of the fragment's stats table, empty when the
table is absent. -/
def statPairs (b : Node) : List (String × String) :=
  match findTable b with
  | none => []
  | some tbl => (statRows tbl).filterMap rowPair

/-- Lines 49–103: extraction of one review fragment.  An uncaught exception is
an `.error`: a missing `time` element raises `AttributeError` (line 53,
outside any try), and a short stats row raises `IndexError` (lines 88–89,
not matched by `except AttributeError`).  A missing ratings table raises
`AttributeError` on line 85 (`None.find_all`), which IS caught: the record
keeps its core fields and gains no variable attributes. -/
def scrapeReview (b : Node) : Except PyError Record :=
  match extractDate b with
  | .error e => .error e
  | .ok d =>
    match findTable b with
    | none => .ok (coreRecord b d)
    | some tbl => parseStats (coreRecord b d) (statRows tbl)

/-- Lines 46–105: map the extractor over every `article.list-item` fragment
of a listing page; an exception in any fragment aborts the whole call. -/
def scrapePage (doc : Node) : Except PyError (List Record) :=
  (findAll doc (tagClass "article" "list-item")).mapM scrapeReview

/-! ## Pagination Discoverer (`main`, lines 126–148) -/

/-- Python `int(s)` digit parsing after the sign: digits with single
underscores allowed only between digits. -/
def pyDigitsAux (acc : Nat) : List Char → Option Nat
  | [] => some acc
  | '_' :: c :: rest =>
    if c.isDigit then pyDigitsAux (acc * 10 + (c.toNat - '0'.toNat)) rest else none
  | c :: rest =>
    if c.isDigit then pyDigitsAux (acc * 10 + (c.toNat - '0'.toNat)) rest else none

/-- Python `int(s)` digit run: non-empty, starting with a digit. -/
def pyDigits : List Char → Option Nat
  | [] => none
  | c :: rest =>
    if c.isDigit then pyDigitsAux (c.toNat - '0'.toNat) rest else none

/-- Python `int(s)` on a string: surrounding whitespace stripped, optional
sign, decimal digits; None models a `ValueError`. -/
def pyInt (s : String) : Option Int :=
  match trimChars s.data with
  | '-' :: rest => (pyDigits rest).map (fun n => -(n : Int))
  | '+' :: rest => (pyDigits rest).map (fun n => (n : Int))
  | rest => (pyDigits rest).map (fun n => (n : Int))

/-- Line 140: `soup.find("article", class_="comp_reviews-pagination")`. -/
def isPagControl : Node → Bool :=
  tagClass "article" "comp_reviews-pagination"

/-- What one iteration of `main`'s per-category loop does up to the point the
page count is known (lines 131–143).  `skippedFetch` is the caught
`RequestException` path: a diagnostic is printed and the loop continues with
the next category.  `crashed e` is an UNCAUGHT exception from the pagination
parsing (lines 140–143 sit outside the try), which aborts the whole run.
`scraped n` means the page count was resolved to `n` and harvesting
proceeds. -/
inductive CategoryOutcome where
  | skippedFetch
  | crashed (e : PyError)
  | scraped (numPages : Int)
deriving DecidableEq

/-- Lines 131–143 of `main` for one category: the fetch result is either a
parsed page-1 document or a transport failure.  `page_nav.find_all("li")` on
None raises `AttributeError`; `nav_items[-2]` needs at least two entries or it
raises `IndexError`; `int(...)` of a non-numeric text raises `ValueError`. -/
def processCategory (fetched : Option Node) : CategoryOutcome :=
  match fetched with
  | none => .skippedFetch
  | some soup =>
    match findFirst soup isPagControl with
    | none => .crashed .attributeError
    | some nav =>
      let items := findAll nav (isTag "li")
      if 2 ≤ items.length then
        match pyInt (strippedText (items.getD (items.length - 2) (.text ""))) with
        | some n => .scraped n
        | none => .crashed .valueError
      else .crashed .indexError

/-! ## Identity Pseudonymizer (`pseudonymize.py`) -/

/-- The index of the first occurrence of `x`, or the length when absent
(pandas/pythonic first-occurrence position). -/
def firstIdx (x : String) : List String → Nat
  | [] => 0
  | y :: ys => if y = x then 0 else firstIdx x ys + 1

/-- `pd.factorize` with an explicit running table of already-seen keys:
a seen key gets its first-occurrence position in the table, a new key gets the
next fresh code and is appended. -/
def factorizeAux (seen : List String) : List String → List Nat
  | [] => []
  | x :: xs =>
    if x ∈ seen then firstIdx x seen :: factorizeAux seen xs
    else seen.length :: factorizeAux (seen ++ [x]) xs

/-- `pd.factorize(keys)[0]`: integer codes in first-appearance order, equal
keys sharing a code. -/
def factorize (keys : List String) : List Nat :=
  factorizeAux [] keys

/-- The table of distinct keys in first-appearance order that `factorizeAux`
ends up with (`pd.factorize(keys)[1]` when `seen = []`). -/
def collectSeen (seen : List String) : List String → List String
  | [] => seen
  | x :: xs =>
    if x ∈ seen then collectSeen seen xs
    else collectSeen (seen ++ [x]) xs

/-- A CSV file read into a DataFrame: columns in order, each with its cell
list (all the same length for a well-formed file). -/
abbrev DataFrame := List (String × List String)

/-- `df.columns`. -/
def columns (df : DataFrame) : List String :=
  df.map (fun p => p.1)

/-- `df[c]`: the cells of column `c` (empty when absent; the callers guard
membership). -/
def getCol (df : DataFrame) (c : String) : List String :=
  match df with
  | [] => []
  | p :: ps => if p.1 = c then p.2 else getCol ps c

/-- `df[c] = vals`: replace the column in place, or append a new one. -/
def setCol (df : DataFrame) (c : String) (vals : List String) : DataFrame :=
  if c ∈ columns df then df.map (fun p => if p.1 = c then (c, vals) else p)
  else df ++ [(c, vals)]

/-- `df.drop(columns=[c])`. -/
def dropCol (df : DataFrame) (c : String) : DataFrame :=
  df.filter (fun p => decide (p.1 ≠ c))

/-- Line 21: the composite keys `df["Author"] + "|" + df["Country"]`. -/
def pseudoKeys (df : DataFrame) : List String :=
  List.zipWith (fun a c => a ++ "|" ++ c) (getCol df "Author") (getCol df "Country")

/-- Outcome of `process_dataset` on one file. -/
inductive PseudoResult where
  /-- `logging.warning`, early return: the file is left untouched. -/
  | warnSkipped
  /-- the `except` branch: `logging.error`, the file is left untouched. -/
  | errorLogged
  /-- `to_csv` overwrote the file with this DataFrame. -/
  | written (df : DataFrame)
deriving DecidableEq

/-- `process_dataset` (pseudonymize.py lines 15–26): the argument is the
result of `pd.read_csv` (`.error` for an unreadable file, which the `except`
turns into a logged error).  With both required columns present, an
`author_id` column of factorize codes over `Author + "|" + Country` is added,
the `Author` column is dropped and the file is rewritten. -/
def process_dataset (input : Except Unit DataFrame) : PseudoResult :=
  match input with
  | .error _ => .errorLogged
  | .ok df =>
    if "Author" ∉ columns df ∨ "Country" ∉ columns df then .warnSkipped
    else
      .written (dropCol (setCol df "author_id" ((factorize (pseudoKeys df)).map toString)) "Author")

/-! ## Definitions written from the claim wording (for comparison) -/

/-- Definition following the words of the spec sentence behind claim C6 —
"the substring of the status line between the last unmatched `(` and the next
`)`" — read in the only way compatible with the spec's own example: every
`(` before the first `)` is so far unmatched, so take the first `)` of the
text, the last `(` before it, and the characters strictly between them. -/
def specCountryClaimRule (cs : List Char) : Option (List Char) :=
  let pre := cs.takeWhile (fun c => c ≠ ')')
  if pre.length = cs.length then none
  else if '(' ∈ pre then some ((pre.reverse.takeWhile (fun c => c ≠ '(')).reverse)
  else none

/-- The six core field names of a review record. -/
def coreFieldNames : List String :=
  ["Date", "Rating", "Title", "Author", "Country", "Review"]

/-! ## Concrete documents and fragments used as test inputs -/

/-- A review fragment with no `time` element at all. -/
def fragNoTime : Node :=
  .elem "article" [("class", "list-item")] [
    .elem "h2" [("class", "text_header")] [.text "Great flight"],
    .elem "span" [("itemprop", "name")] [.text "Jo"]]

/-- The secondary rating element of `fragSecondary`. -/
def secondaryDiv : Node :=
  .elem "div" [("class", "rating-10")] [.text "8/10"]

/-- A fragment whose rating appears only as the secondary `div.rating-10`
display, with no ratings table. -/
def fragSecondary : Node :=
  .elem "article" [("class", "list-item")] [
    .elem "time" [("datetime", "2023-05-01")] [],
    secondaryDiv,
    .elem "h2" [("class", "text_header")] [.text "Great"],
    .elem "span" [("itemprop", "name")] [.text "John D"],
    .elem "h3" [("class", "userStatusWrapper")] [.text "John D (United Kingdom)"],
    .elem "div" [("itemprop", "reviewBody")] [.text "Nice flight"]]

/-- The status element of `fragUK`. -/
def ukStatus : Node :=
  .elem "h3" [("class", "userStatusWrapper")] [.text "John D (United Kingdom)"]

/-- A fragment whose status line is the spec's own Country example. -/
def fragUK : Node :=
  .elem "article" [("class", "list-item")] [
    .elem "time" [("datetime", "2023-05-01")] [],
    ukStatus]

/-- A fragment whose status line nests parentheses: "a(b(c)d)". -/
def fragNested : Node :=
  .elem "article" [("class", "list-item")] [
    .elem "time" [("datetime", "2023-05-01")] [],
    .elem "h3" [("class", "userStatusWrapper")] [.text "a(b(c)d)"]]

/-- A fragment whose ratings table has a row with a single cell. -/
def fragShortRow : Node :=
  .elem "article" [("class", "list-item")] [
    .elem "time" [("datetime", "2024-01-01")] [],
    .elem "table" [("class", "review-ratings")] [
      .elem "tr" [] [
        .elem "td" [("class", "review-rating-header")] [.text "Food"]]]]

/-- A filled-star span as the site renders them inside a star-rating cell. -/
def fillSpan (t : String) : Node :=
  .elem "span" [("class", "star fill")] [.text t]

/-- An unfilled star span. -/
def plainStar (t : String) : Node :=
  .elem "span" [("class", "star")] [.text t]

/-- A star-rating value cell whose text is exactly "12345" but which contains
SIX `span.star.fill` sub-elements (the sixth contributes no text). -/
def starCell6 : Node :=
  .elem "td" [("class", "review-rating-stars stars")] [
    fillSpan "1", fillSpan "2", fillSpan "3", fillSpan "4", fillSpan "5",
    .elem "span" [("class", "star fill")] []]

/-- A fragment whose single stats row carries `starCell6`. -/
def fragStars6 : Node :=
  .elem "article" [("class", "list-item")] [
    .elem "time" [("datetime", "2024-01-01")] [],
    .elem "table" [("class", "review-ratings")] [
      .elem "tr" [] [
        .elem "td" [("class", "review-rating-header")] [.text "Seat Comfort"],
        starCell6]]]

/-- The record `scrapeReview` produces for `fragStars6`. -/
def stars6Rec : Record :=
  [("Date", "2024-01-01"), ("Rating", "N/A"), ("Title", "N/A"),
   ("Author", "N/A"), ("Country", "N/A"), ("Review", "N/A"),
   ("Seat Comfort", "6")]

/-- A star-rating value cell with text "12345" and four filled stars (the
fifth star span lacks the `fill` class). -/
def starCell4 : Node :=
  .elem "td" [("class", "review-rating-stars stars")] [
    fillSpan "1", fillSpan "2", fillSpan "3", fillSpan "4", plainStar "5"]

/-- The label cell used by the four-star fragment. -/
def labelCell4 : Node :=
  .elem "td" [("class", "review-rating-header")] [.text "Seat Comfort"]

/-- The single stats row of the four-star fragment. -/
def starRow4 : Node :=
  .elem "tr" [] [labelCell4, starCell4]

/-- The ratings table of the four-star fragment. -/
def starTable4 : Node :=
  .elem "table" [("class", "review-ratings")] [starRow4]

/-- A fragment whose single stats row carries `starCell4`. -/
def fragStars4 : Node :=
  .elem "article" [("class", "list-item")] [
    .elem "time" [("datetime", "2024-01-01")] [],
    starTable4]

/-- A ratings table with a single row labelled "Country" and value "Narnia". -/
def overwriteTable : Node :=
  .elem "table" [("class", "review-ratings")] [
    .elem "tr" [] [
      .elem "td" [("class", "review-rating-header")] [.text "Country"],
      .elem "td" [("class", "review-value")] [.text "Narnia"]]]

/-- A fragment whose stats table has a row labelled "Country", clashing with
the core field extracted from the status line ("France"). -/
def fragOverwrite : Node :=
  .elem "article" [("class", "list-item")] [
    .elem "time" [("datetime", "2023-01-01")] [],
    .elem "h3" [("class", "userStatusWrapper")] [.text "Jane (France)"],
    overwriteTable]

/-- The record `scrapeReview` produces for `fragOverwrite`: the table row has
silently replaced the Country extracted from the status line. -/
def overwriteRec : Record :=
  [("Date", "2023-01-01"), ("Rating", "N/A"), ("Title", "N/A"),
   ("Author", "N/A"), ("Country", "Narnia"), ("Review", "N/A")]

/-- A page-1 document with no pagination control at all. -/
def docNoPag : Node :=
  .elem "html" [] [
    .elem "div" [("class", "main")] [.text "no reviews here"]]

/-- The pagination control of a 7-page category: page links "1"…"7" followed
by a trailing next-control entry. -/
def pagNav7 : Node :=
  .elem "article" [("class", "comp_reviews-pagination")] [
    .elem "ul" [] [
      .elem "li" [] [.elem "a" [] [.text "1"]],
      .elem "li" [] [.elem "a" [] [.text "2"]],
      .elem "li" [] [.elem "a" [] [.text "3"]],
      .elem "li" [] [.elem "a" [] [.text "4"]],
      .elem "li" [] [.elem "a" [] [.text "5"]],
      .elem "li" [] [.elem "a" [] [.text "6"]],
      .elem "li" [] [.elem "a" [] [.text "7"]],
      .elem "li" [("class", "next")] [.elem "a" [] [.text "Next"]]]]

/-- A page-1 document of a 7-page category. -/
def pagDoc7 : Node :=
  .elem "html" [] [pagNav7]

/-- A dataset whose two rows differ in both Author and Country but whose
composite keys `Author + "|" + Country` coincide ("a|b|c"). -/
def dfCollide : DataFrame :=
  [("Author", ["a|b", "a"]), ("Country", ["c", "b|c"])]

/-- A dataset missing the Country column. -/
def dfNoCountry : DataFrame :=
  [("Author", ["Ann", "Bob"]), ("Review", ["good", "bad"])]

/-- A well-formed dataset with a repeated author identity. -/
def dfPseud : DataFrame :=
  [("Author", ["Ann", "Bob", "Ann"]), ("Country", ["UK", "FR", "UK"])]

/-- The record `scrapeReview` produces for `fragSecondary`. -/
def secondaryRec : Record :=
  [("Date", "2023-05-01"), ("Rating", "8/10"), ("Title", "Great"),
   ("Author", "John D"), ("Country", "United Kingdom"), ("Review", "Nice flight")]

/-- Folding a pair list into a record by repeated dict assignment — what the
stats loop does to the review dict. -/
def applyStats (rec : Record) (ps : List (String × String)) : Record :=
  ps.foldl (fun a p => setField a p.1 p.2) rec

/-! ## Lemmas about records and the stats loop -/

theorem getField_setField (rec : Record) (k v f : String) :
    getField (setField rec k v) f = if k = f then some v else getField rec f := by
  induction rec with
  | nil => simp [setField, getField]
  | cons p ps ih =>
    rcases p with ⟨pk, pv⟩
    by_cases hpk : pk = k
    · subst hpk
      by_cases hkf : pk = f <;> simp [setField, getField, hkf]
    · by_cases hkf : k = f
      · subst hkf
        simp [setField, getField, hpk, ih]
      · simp [setField, getField, hpk, hkf, ih]

theorem applyStats_lastLookup_none (ps : List (String × String)) :
    ∀ (rec : Record) (f : String), lastLookup ps f = none →
      getField (applyStats rec ps) f = getField rec f := by
  induction ps with
  | nil => intro rec f _; simp [applyStats]
  | cons p ps ih =>
    intro rec f h
    have hps : lastLookup ps f = none := by
      cases hl : lastLookup ps f with
      | none => rfl
      | some w => simp [lastLookup, hl] at h
    have hpf : ¬ p.1 = f := by
      intro hpf
      simp [lastLookup, hps, hpf] at h
    have : applyStats rec (p :: ps) = applyStats (setField rec p.1 p.2) ps := rfl
    rw [this, ih _ _ hps, getField_setField, if_neg hpf]

theorem applyStats_lastLookup_some (ps : List (String × String)) :
    ∀ (rec : Record) (f v : String), lastLookup ps f = some v →
      getField (applyStats rec ps) f = some v := by
  induction ps with
  | nil => intro rec f v h; simp [lastLookup] at h
  | cons p ps ih =>
    intro rec f v h
    have hstep : applyStats rec (p :: ps) = applyStats (setField rec p.1 p.2) ps := rfl
    cases hl : lastLookup ps f with
    | some w =>
      have hw : w = v := by simp [lastLookup, hl] at h; exact h
      rw [hstep, ih _ _ _ (hw ▸ hl)]
    | none =>
      have hp : p.1 = f ∧ p.2 = v := by
        by_cases hpf : p.1 = f
        · refine ⟨hpf, ?_⟩
          simp [lastLookup, hl, hpf] at h
          exact h
        · simp [lastLookup, hl, hpf] at h
      rw [hstep, applyStats_lastLookup_none ps _ _ hl, getField_setField, if_pos hp.1, hp.2]

theorem parseStats_ok (rows : List Node) :
    ∀ (rec rec' : Record), parseStats rec rows = .ok rec' →
      rec' = applyStats rec (rows.filterMap rowPair) := by
  induction rows with
  | nil =>
    intro rec rec' h
    simp [parseStats] at h
    simp [h, applyStats]
  | cons r rs ih =>
    intro rec rec' h
    simp only [parseStats] at h
    cases hc : findChildren r with
    | nil => rw [hc] at h; simp at h
    | cons c0 tl =>
      cases tl with
      | nil => rw [hc] at h; simp at h
      | cons c1 tl2 =>
        rw [hc] at h
        simp only [] at h
        have hr : rowPair r = some (strip (innerText c0), statValue c1) := by
          simp [rowPair, hc]
        rw [List.filterMap_cons, hr]
        exact ih _ _ h

/-! ## Lemmas about the country regex scan -/

theorem bodyScan_sound (cs : List Char) :
    ∀ b, bodyScan cs = some b →
      ∃ post, cs = b ++ ')' :: post ∧ b ≠ [] ∧
        (∀ c ∈ b, c ≠ '\n') ∧ (∀ c ∈ b.tail, c ≠ ')') := by
  induction cs with
  | nil => intro b h; simp [bodyScan] at h
  | cons c rest ih =>
    intro b h
    by_cases hnl : c = '\n'
    · simp [bodyScan, hnl] at h
    · cases rest with
      | nil => simp [bodyScan, hnl] at h
      | cons d rest' =>
        by_cases hd : d = ')'
        · have hb : b = [c] := by
            simp [bodyScan, hnl, hd] at h
            exact h.symm
          subst hb hd
          exact ⟨rest', rfl, by simp, by simp [hnl], by simp⟩
        · have hmap : (bodyScan (d :: rest')).map (fun b => c :: b) = some b := by
            simpa [bodyScan, hnl, hd] using h
          rcases Option.map_eq_some'.mp hmap with ⟨b', hb', rfl⟩
          rcases ih b' hb' with ⟨post, hdec, hne, hnlb, hnpar⟩
          refine ⟨post, by simp [hdec], by simp, ?_, ?_⟩
          · intro x hx
            rcases List.mem_cons.mp hx with hx | hx
            · exact hx ▸ hnl
            · exact hnlb x hx
          · intro x hx
            have hxb' : x ∈ b' := by simpa using hx
            rcases b' with _ | ⟨e, b''⟩
            · exact absurd rfl hne
            · have hed : e = d := by
                have : d :: rest' = e :: (b'' ++ ')' :: post) := by simpa using hdec
                exact (List.cons.injEq _ _ _ _ ▸ this).1.symm
              rcases List.mem_cons.mp hxb' with hx1 | hx2
              · rw [hx1, hed]; exact hd
              · exact hnpar x hx2

theorem searchParen_sound (cs : List Char) :
    ∀ m, searchParen cs = some m →
      ∃ pre post, cs = pre ++ '(' :: (m ++ ')' :: post) ∧ m ≠ [] ∧
        (∀ c ∈ m, c ≠ '\n') ∧ (∀ c ∈ m.tail, c ≠ ')') := by
  induction cs with
  | nil => intro m h; simp [searchParen] at h
  | cons c rest ih =>
    intro m h
    by_cases hc : c = '('
    · cases hb : bodyScan rest with
      | some b =>
        obtain rfl : b = m := by simpa [searchParen, hc, hb] using h
        rcases bodyScan_sound rest b hb with ⟨post, hdec, hne, hnl, hnp⟩
        exact ⟨[], post, by simp [hc, hdec], hne, hnl, hnp⟩
      | none =>
        have hrec : searchParen rest = some m := by simpa [searchParen, hc, hb] using h
        rcases ih m hrec with ⟨pre, post, hdec, hne, hnl, hnp⟩
        exact ⟨c :: pre, post, by simp [hdec], hne, hnl, hnp⟩
    · have hrec : searchParen rest = some m := by simpa [searchParen, hc] using h
      rcases ih m hrec with ⟨pre, post, hdec, hne, hnl, hnp⟩
      exact ⟨c :: pre, post, by simp [hdec], hne, hnl, hnp⟩

/-! ## Lemmas about `factorize` -/

theorem firstIdx_cons_self (x : String) (t : List String) : firstIdx x (x :: t) = 0 := by
  simp [firstIdx]

theorem firstIdx_append_of_mem (x : String) (seen t : List String) (hx : x ∈ seen) :
    firstIdx x (seen ++ t) = firstIdx x seen := by
  induction seen with
  | nil => cases hx
  | cons y ys ih =>
    by_cases hyx : y = x
    · simp [firstIdx, hyx]
    · have hx' : x ∈ ys := by
        rcases List.mem_cons.mp hx with h | h
        · exact absurd h.symm hyx
        · exact h
      simp [firstIdx, hyx, ih hx']

theorem firstIdx_append_not_mem (x : String) (seen t : List String) (hx : x ∉ seen) :
    firstIdx x (seen ++ t) = seen.length + firstIdx x t := by
  induction seen with
  | nil => simp
  | cons y ys ih =>
    have hyx : ¬ y = x := fun h => hx (by simp [h])
    have hx' : x ∉ ys := fun h => hx (by simp [h])
    simp [firstIdx, hyx, ih hx']
    omega

theorem collectSeen_extend (xs : List String) :
    ∀ seen, ∃ t, collectSeen seen xs = seen ++ t := by
  induction xs with
  | nil => intro seen; exact ⟨[], by simp [collectSeen]⟩
  | cons x xs ih =>
    intro seen
    by_cases hx : x ∈ seen
    · rcases ih seen with ⟨t, ht⟩
      exact ⟨t, by simp [collectSeen, hx, ht]⟩
    · rcases ih (seen ++ [x]) with ⟨t, ht⟩
      exact ⟨x :: t, by simp [collectSeen, hx, ht]⟩

theorem mem_collectSeen (xs : List String) :
    ∀ seen x, x ∈ xs → x ∈ collectSeen seen xs := by
  induction xs with
  | nil => intro seen x h; cases h
  | cons y ys ih =>
    intro seen x hx
    by_cases hy : y ∈ seen
    · rcases List.mem_cons.mp hx with rfl | hx'
      · rcases collectSeen_extend ys seen with ⟨t, ht⟩
        simp [collectSeen, hy, ht]
      · simpa [collectSeen, hy] using ih seen x hx'
    · rcases List.mem_cons.mp hx with rfl | hx'
      · rcases collectSeen_extend ys (seen ++ [x]) with ⟨t, ht⟩
        simp [collectSeen, hy, ht]
      · simpa [collectSeen, hy] using ih (seen ++ [y]) x hx'

theorem factorizeAux_map (xs : List String) :
    ∀ seen, factorizeAux seen xs = xs.map (fun x => firstIdx x (collectSeen seen xs)) := by
  induction xs with
  | nil => intro seen; simp [factorizeAux]
  | cons x xs ih =>
    intro seen
    by_cases hx : x ∈ seen
    · rcases collectSeen_extend xs seen with ⟨t, ht⟩
      simp only [factorizeAux, collectSeen, if_pos hx, List.map_cons]
      rw [ih seen]
      congr 1
      rw [ht, firstIdx_append_of_mem x seen t hx]
    · rcases collectSeen_extend xs (seen ++ [x]) with ⟨t, ht⟩
      simp only [factorizeAux, collectSeen, if_neg hx, List.map_cons]
      rw [ih (seen ++ [x])]
      congr 1
      rw [ht, List.append_assoc, List.singleton_append,
        firstIdx_append_not_mem x seen (x :: t) hx, firstIdx_cons_self]
      omega

theorem getD_firstIdx (l : List String) (x : String) (hx : x ∈ l) :
    l.getD (firstIdx x l) "" = x := by
  induction l with
  | nil => cases hx
  | cons y ys ih =>
    by_cases hyx : y = x
    · simp [firstIdx, hyx]
    · have hx' : x ∈ ys := by
        rcases List.mem_cons.mp hx with h | h
        · exact absurd h.symm hyx
        · exact h
      simp only [firstIdx, if_neg hyx, List.getD_cons_succ]
      exact ih hx'

theorem firstIdx_inj (l : List String) (a b : String) (ha : a ∈ l) (hb : b ∈ l)
    (h : firstIdx a l = firstIdx b l) : a = b := by
  have hda := getD_firstIdx l a ha
  rw [h, getD_firstIdx l b hb] at hda
  exact hda.symm

theorem firstIdx_collectSeen_mono (xs : List String) :
    ∀ seen a b, a ∈ xs → b ∈ xs → a ∉ seen → b ∉ seen →
      firstIdx a xs < firstIdx b xs →
      firstIdx a (collectSeen seen xs) < firstIdx b (collectSeen seen xs) := by
  induction xs with
  | nil => intro seen a b ha; cases ha
  | cons y ys ih =>
    intro seen a b ha hb has hbs hlt
    by_cases hy : y ∈ seen
    · have hya : ¬ y = a := fun h => has (h ▸ hy)
      have hyb : ¬ y = b := fun h => hbs (h ▸ hy)
      have ha' : a ∈ ys := by
        rcases List.mem_cons.mp ha with h | h
        · exact absurd h.symm hya
        · exact h
      have hb' : b ∈ ys := by
        rcases List.mem_cons.mp hb with h | h
        · exact absurd h.symm hyb
        · exact h
      have hlt' : firstIdx a ys < firstIdx b ys := by
        have h0 := hlt
        simp [firstIdx, hya, hyb] at h0
        exact h0
      simpa [collectSeen, hy] using ih seen a b ha' hb' has hbs hlt'
    · by_cases hyb : y = b
      · exfalso
        rw [← hyb, firstIdx_cons_self] at hlt
        exact Nat.not_lt_zero _ hlt
      · by_cases hya : y = a
        · subst hya
          rcases collectSeen_extend ys (seen ++ [y]) with ⟨t, ht⟩
          have hfin : collectSeen seen (y :: ys) = (seen ++ [y]) ++ t := by
            simp [collectSeen, hy, ht]
          have hb' : b ∈ ys := by
            rcases List.mem_cons.mp hb with h | h
            · exact absurd h.symm hyb
            · exact h
          have hbs' : b ∉ seen ++ [y] := by
            intro hmem
            rcases List.mem_append.mp hmem with h | h
            · exact hbs h
            · simp at h
              exact hyb h.symm
          have e1 : firstIdx y (collectSeen seen (y :: ys)) = seen.length := by
            rw [hfin, List.append_assoc, List.singleton_append,
              firstIdx_append_not_mem y seen (y :: t) hy, firstIdx_cons_self]
            omega
          have e2 : seen.length < firstIdx b (collectSeen seen (y :: ys)) := by
            rw [hfin, firstIdx_append_not_mem b (seen ++ [y]) t hbs']
            simp
            omega
          omega
        · have ha' : a ∈ ys := by
            rcases List.mem_cons.mp ha with h | h
            · exact absurd h.symm hya
            · exact h
          have hb' : b ∈ ys := by
            rcases List.mem_cons.mp hb with h | h
            · exact absurd h.symm hyb
            · exact h
          have hlt' : firstIdx a ys < firstIdx b ys := by
            have h0 := hlt
            simp [firstIdx, hya, hyb] at h0
            exact h0
          have has' : a ∉ seen ++ [y] := by
            intro hmem
            rcases List.mem_append.mp hmem with h | h
            · exact has h
            · simp at h
              exact hya h.symm
          have hbs' : b ∉ seen ++ [y] := by
            intro hmem
            rcases List.mem_append.mp hmem with h | h
            · exact hbs h
            · simp at h
              exact hyb h.symm
          simpa [collectSeen, hy] using ih (seen ++ [y]) a b ha' hb' has' hbs' hlt'

theorem firstIdx_collectSeen_le (xs : List String) :
    ∀ seen x, x ∈ xs → x ∉ seen →
      firstIdx x (collectSeen seen xs) ≤ seen.length + firstIdx x xs := by
  induction xs with
  | nil => intro seen x h; cases h
  | cons y ys ih =>
    intro seen x hx hxs
    by_cases hy : y ∈ seen
    · have hyx : ¬ y = x := fun h => hxs (h ▸ hy)
      have hx' : x ∈ ys := by
        rcases List.mem_cons.mp hx with h | h
        · exact absurd h.symm hyx
        · exact h
      have hrec := ih seen x hx' hxs
      have hcol : collectSeen seen (y :: ys) = collectSeen seen ys := by
        simp [collectSeen, hy]
      rw [hcol]
      simp [firstIdx, hyx]
      omega
    · by_cases hyx : y = x
      · subst hyx
        rcases collectSeen_extend ys (seen ++ [y]) with ⟨t, ht⟩
        have hfin : collectSeen seen (y :: ys) = (seen ++ [y]) ++ t := by
          simp [collectSeen, hy, ht]
        rw [hfin, List.append_assoc, List.singleton_append,
          firstIdx_append_not_mem y seen (y :: t) hy, firstIdx_cons_self, firstIdx_cons_self]
      · have hx' : x ∈ ys := by
          rcases List.mem_cons.mp hx with h | h
          · exact absurd h.symm hyx
          · exact h
        have hxs' : x ∉ seen ++ [y] := by
          intro hmem
          rcases List.mem_append.mp hmem with h | h
          · exact hxs h
          · simp at h
            exact hyx h.symm
        have hrec := ih (seen ++ [y]) x hx' hxs'
        have hcol : collectSeen seen (y :: ys) = collectSeen (seen ++ [y]) ys := by
          simp [collectSeen, hy]
        rw [hcol]
        simp [firstIdx, hyx]
        simp at hrec
        omega

theorem firstIdx_getD_le (l : List String) : ∀ i, i < l.length → firstIdx (l.getD i "") l ≤ i := by
  induction l with
  | nil => intro i h; simp at h
  | cons y ys ih =>
    intro i hi
    cases i with
    | zero =>
      rw [List.getD_cons_zero]
      simp [firstIdx]
    | succ n =>
      rw [List.getD_cons_succ]
      by_cases h : y = ys.getD n ""
      · simp only [firstIdx, if_pos h]
        omega
      · simp only [firstIdx, if_neg h]
        have := ih n (by simpa using hi)
        omega

theorem mem_getD (l : List String) : ∀ i, i < l.length → l.getD i "" ∈ l := by
  induction l with
  | nil => intro i h; simp at h
  | cons y ys ih =>
    intro i hi
    cases i with
    | zero => simp
    | succ n =>
      simp only [List.getD_cons_succ]
      exact List.mem_cons_of_mem y (ih n (by simpa using hi))

theorem getD_map_nat (l : List String) (f : String → Nat) :
    ∀ i, i < l.length → (l.map f).getD i 0 = f (l.getD i "") := by
  induction l with
  | nil => intro i h; simp at h
  | cons y ys ih =>
    intro i hi
    cases i with
    | zero => simp
    | succ n => simpa using ih n (by simpa using hi)

theorem factorize_length (keys : List String) : (factorize keys).length = keys.length := by
  rw [factorize, factorizeAux_map keys []]
  simp

theorem factorize_getD (keys : List String) (i : Nat) (hi : i < keys.length) :
    (factorize keys).getD i 0 = firstIdx (keys.getD i "") (collectSeen [] keys) := by
  rw [factorize, factorizeAux_map keys []]
  exact getD_map_nat keys _ i hi

theorem factorize_spec (keys : List String) :
    (∀ i j, i < keys.length → j < keys.length →
      ((factorize keys).getD i 0 = (factorize keys).getD j 0 ↔
        keys.getD i "" = keys.getD j ""))
    ∧ (∀ i j, i < keys.length → j < keys.length →
      ((factorize keys).getD i 0 < (factorize keys).getD j 0 ↔
        firstIdx (keys.getD i "") keys < firstIdx (keys.getD j "") keys))
    ∧ (∀ i, i < keys.length → (factorize keys).getD i 0 ≤ i) := by
  refine ⟨?_, ?_, ?_⟩
  · intro i j hi hj
    rw [factorize_getD keys i hi, factorize_getD keys j hj]
    constructor
    · intro h
      exact firstIdx_inj (collectSeen [] keys) _ _
        (mem_collectSeen keys [] _ (mem_getD keys i hi))
        (mem_collectSeen keys [] _ (mem_getD keys j hj)) h
    · intro h
      rw [h]
  · intro i j hi hj
    rw [factorize_getD keys i hi, factorize_getD keys j hj]
    constructor
    · intro hU
      rcases Nat.lt_trichotomy (firstIdx (keys.getD i "") keys)
          (firstIdx (keys.getD j "") keys) with hlt | heq | hgt
      · exact hlt
      · exfalso
        have : keys.getD i "" = keys.getD j "" :=
          firstIdx_inj keys _ _ (mem_getD keys i hi) (mem_getD keys j hj) heq
        rw [this] at hU
        exact Nat.lt_irrefl _ hU
      · exfalso
        have := firstIdx_collectSeen_mono keys [] _ _
          (mem_getD keys j hj) (mem_getD keys i hi) (by simp) (by simp) hgt
        exact Nat.lt_asymm hU this
    · intro hk
      exact firstIdx_collectSeen_mono keys [] _ _
        (mem_getD keys i hi) (mem_getD keys j hj) (by simp) (by simp) hk
  · intro i hi
    rw [factorize_getD keys i hi]
    have h1 := firstIdx_collectSeen_le keys [] (keys.getD i "")
      (mem_getD keys i hi) (by simp)
    have h2 := firstIdx_getD_le keys i hi
    simp only [List.length_nil, Nat.zero_add] at h1
    omega

/-! ## The claims -/

/-- C2 (code bug in the source): the spec promises the Field Extractor never
raises and that a fragment with no date/time element yields Date = "N/A", but
line 53 calls `.get` on the result of `find("time")` without a None check:
on a fragment with no `time` element the extractor raises `AttributeError`
(and the whole page's scrape aborts).  The "N/A" default only covers a `time`
element missing its `datetime` attribute. -/
theorem extractor_raises_without_time (b : Node)
    (h : findFirst b (isTag "time") = none) :
    scrapeReview b = .error .attributeError := by
  simp [scrapeReview, extractDate, h]

theorem extractor_raises_without_time_witness :
    findFirst fragNoTime (isTag "time") = none
    ∧ scrapeReview fragNoTime = .error .attributeError :=
  ⟨rfl, extractor_raises_without_time fragNoTime rfl⟩

/-- C9 (confirmed): a dataset missing the Author column or the Country column
makes `process_dataset` log a warning and return before any write: the file
is left untouched and processing continues with the next file. -/
theorem missing_column_warns (df : DataFrame)
    (h : "Author" ∉ columns df ∨ "Country" ∉ columns df) :
    process_dataset (.ok df) = .warnSkipped := by
  simp only [process_dataset]
  rw [if_pos h]

theorem missing_column_warns_witness :
    ("Author" ∉ columns dfNoCountry ∨ "Country" ∉ columns dfNoCountry)
    ∧ process_dataset (.ok dfNoCountry) = .warnSkipped :=
  ⟨Or.inr (by decide), missing_column_warns dfNoCountry (Or.inr (by decide))⟩

/-- C3 (corrected): only a page-1 FETCH failure makes the category be skipped
with a diagnostic; a structurally absent pagination control is read on lines
140–143, outside the try, so `page_nav.find_all("li")` on None raises an
uncaught `AttributeError` that aborts the whole run instead of skipping the
category. -/
theorem pagination_failure_modes :
    processCategory none = .skippedFetch
    ∧ ∀ doc, findFirst doc isPagControl = none →
        processCategory (some doc) = .crashed .attributeError := by
  constructor
  · rfl
  · intro doc h
    simp [processCategory, h]

theorem pagination_failure_modes_witness :
    findFirst docNoPag isPagControl = none
    ∧ processCategory none = .skippedFetch
    ∧ processCategory (some docNoPag) = .crashed .attributeError :=
  ⟨rfl, pagination_failure_modes.1, pagination_failure_modes.2 docNoPag rfl⟩

/-- C3 counterexample: a page-1 document whose pagination control is absent
does NOT get skipped with a diagnostic — the per-category body raises an
uncaught `AttributeError`, which is a different outcome from the caught
fetch-failure skip. -/
theorem pagination_crash_on_missing_control :
    processCategory (some docNoPag) = .crashed .attributeError
    ∧ CategoryOutcome.crashed .attributeError ≠ CategoryOutcome.skippedFetch :=
  ⟨rfl, by decide⟩

/-- C7 (confirmed): with the pagination control present, at least two page
controls listed and the second-to-last entry's stripped text parsing as the
integer `n > 0`, the per-category pagination step resolves the page count to
exactly `n`. -/
theorem pagination_second_to_last (doc nav : Node) (n : Int)
    (hnav : findFirst doc isPagControl = some nav)
    (hlen : 2 ≤ (findAll nav (isTag "li")).length)
    (hn : pyInt (strippedText ((findAll nav (isTag "li")).getD
        ((findAll nav (isTag "li")).length - 2) (.text ""))) = some n)
    (hpos : 0 < n) :
    processCategory (some doc) = .scraped n := by
  simp only [processCategory, hnav]
  rw [if_pos hlen, hn]

theorem pagination_second_to_last_witness :
    findFirst pagDoc7 isPagControl = some pagNav7
    ∧ 2 ≤ (findAll pagNav7 (isTag "li")).length
    ∧ pyInt (strippedText ((findAll pagNav7 (isTag "li")).getD
        ((findAll pagNav7 (isTag "li")).length - 2) (.text ""))) = some 7
    ∧ processCategory (some pagDoc7) = .scraped 7 :=
  ⟨rfl, by decide, rfl,
    pagination_second_to_last pagDoc7 pagNav7 7 rfl (by decide) rfl (by decide)⟩

/-- C4 (corrected): the stats-table try/except catches only `AttributeError`
— in particular a fragment with NO `review-ratings` table (None.find_all) is
caught and the record keeps all already-extracted core fields, without
variable attributes.  A malformed row with fewer than two cells raises
`IndexError`, which is not caught (see the counterexample). -/
theorem stats_attribute_error_caught (b : Node) (d : String)
    (hd : extractDate b = .ok d) (ht : findTable b = none) :
    scrapeReview b = .ok (coreRecord b d)
    ∧ getField (coreRecord b d) "Date" = some d := by
  constructor
  · simp [scrapeReview, hd, ht]
  · rfl

theorem stats_attribute_error_caught_witness :
    extractDate fragSecondary = .ok "2023-05-01"
    ∧ findTable fragSecondary = none
    ∧ scrapeReview fragSecondary = .ok (coreRecord fragSecondary "2023-05-01") :=
  ⟨rfl, rfl, (stats_attribute_error_caught fragSecondary "2023-05-01" rfl rfl).1⟩

/-- C4 counterexample: a ratings-table row with a single cell makes
`cells[1]` raise `IndexError`, which `except AttributeError` does not catch:
the exception escapes the extractor and no record is returned at all,
contrary to the claim that any table-parsing failure is caught. -/
theorem stats_short_row_raises :
    scrapeReview fragShortRow = .error .indexError := rfl

/-- C5 (corrected): a value cell whose stripped text is exactly "12345" is
stored as the count of `span.star.fill` sub-elements and any other cell is
stored as its stripped text verbatim — but the count is NOT guaranteed to lie
in [0,5]: `len(cells[1].find_all("span", class_="star fill"))` has no upper
bound (see the counterexample with six filled-star spans). -/
theorem star_value_rule (b : Node) (d : String) (tbl r c0 c1 : Node) (rest : List Node)
    (hd : extractDate b = .ok d) (ht : findTable b = some tbl)
    (hrows : statRows tbl = [r]) (hcells : findChildren r = c0 :: c1 :: rest) :
    scrapeReview b = .ok (setField (coreRecord b d) (strip (innerText c0)) (statValue c1))
    ∧ (strip (innerText c1) = "12345" → statValue c1 = toString (starFillCount c1))
    ∧ (strip (innerText c1) ≠ "12345" → statValue c1 = strip (innerText c1)) := by
  refine ⟨?_, ?_, ?_⟩
  · simp only [scrapeReview, hd, ht, hrows, parseStats]
    rw [hcells]
  · intro h
    simp [statValue, h]
  · intro h
    simp [statValue, h]

theorem star_value_rule_witness :
    findChildren starRow4 = labelCell4 :: starCell4 ::
      [fillSpan "1", fillSpan "2", fillSpan "3", fillSpan "4", plainStar "5"]
    ∧ strip (innerText starCell4) = "12345"
    ∧ statValue starCell4 = "4"
    ∧ scrapeReview fragStars4 =
        .ok (setField (coreRecord fragStars4 "2024-01-01") "Seat Comfort" "4") := by
  refine ⟨rfl, rfl, rfl, ?_⟩
  have h := star_value_rule fragStars4 "2024-01-01" starTable4 starRow4 labelCell4 starCell4
    [fillSpan "1", fillSpan "2", fillSpan "3", fillSpan "4", plainStar "5"] rfl rfl rfl rfl
  exact h.1

/-- C5 counterexample: a value cell with stripped text exactly "12345" can
contain SIX filled-star spans (one contributing no text), so the stored value
is "6" — the count is not an integer in [0,5] as claimed. -/
theorem star_count_exceeds_five :
    strip (innerText starCell6) = "12345"
    ∧ starFillCount starCell6 = 6
    ∧ ¬ starFillCount starCell6 ≤ 5
    ∧ scrapeReview fragStars6 = .ok stars6Rec
    ∧ getField stars6Rec "Seat Comfort" = some "6" :=
  ⟨rfl, rfl, by decide, rfl, rfl⟩

/-- C10 (confirmed): when the extractor returns a record and the stats table
contains a row whose label equals a core field name, the returned record's
value for that field is the table row's (last such row's) value — the
previously extracted core value is silently overwritten by the plain dict
assignment `review[label_text] = value_text`. -/
theorem stats_row_overwrites_core (b : Node) (d : String) (tbl : Node) (rec : Record)
    (f v : String)
    (hd : extractDate b = .ok d) (ht : findTable b = some tbl)
    (hs : scrapeReview b = .ok rec)
    (hf : f ∈ coreFieldNames)
    (hv : lastLookup ((statRows tbl).filterMap rowPair) f = some v) :
    getField rec f = some v := by
  have hps : parseStats (coreRecord b d) (statRows tbl) = .ok rec := by
    simpa [scrapeReview, hd, ht] using hs
  have hrec := parseStats_ok (statRows tbl) (coreRecord b d) rec hps
  rw [hrec]
  exact applyStats_lastLookup_some _ _ _ _ hv

theorem stats_row_overwrites_core_witness :
    scrapeReview fragOverwrite = .ok overwriteRec
    ∧ extractCountry fragOverwrite = "France"
    ∧ lastLookup ((statRows overwriteTable).filterMap rowPair) "Country" = some "Narnia"
    ∧ getField overwriteRec "Country" = some "Narnia" :=
  ⟨rfl, rfl, rfl,
    stats_row_overwrites_core fragOverwrite "2023-01-01" overwriteTable overwriteRec
      "Country" "Narnia" rfl rfl rfl (by decide) rfl⟩

/-- C8 (confirmed): in a successfully extracted record whose stats table does
not itself carry a "Rating" row, the Rating field is the primary rating
element's stripped text when present; otherwise the secondary rating-display
element's stripped text when that is present; otherwise "N/A". -/
theorem rating_two_tier_fallback (b : Node) (d : String) (rec : Record)
    (hd : extractDate b = .ok d)
    (hs : scrapeReview b = .ok rec)
    (hnost : lastLookup (statPairs b) "Rating" = none) :
    (∀ r, findPrimaryRating b = some r → getField rec "Rating" = some (strip (innerText r)))
    ∧ (findPrimaryRating b = none → ∀ r, findSecondaryRating b = some r →
        getField rec "Rating" = some (strip (innerText r)))
    ∧ (findPrimaryRating b = none → findSecondaryRating b = none →
        getField rec "Rating" = some "N/A") := by
  have hbase : getField rec "Rating" = some (extractRating b) := by
    cases ht : findTable b with
    | none =>
      have hcr : rec = coreRecord b d := by
        have := hs
        simp [scrapeReview, hd, ht] at this
        exact this.symm
      rw [hcr]
      rfl
    | some tbl =>
      have hps : parseStats (coreRecord b d) (statRows tbl) = .ok rec := by
        simpa [scrapeReview, hd, ht] using hs
      have hrec := parseStats_ok (statRows tbl) (coreRecord b d) rec hps
      have hnone : lastLookup ((statRows tbl).filterMap rowPair) "Rating" = none := by
        simpa [statPairs, ht] using hnost
      rw [hrec, applyStats_lastLookup_none _ _ _ hnone]
      rfl
  refine ⟨?_, ?_, ?_⟩
  · intro r hr
    rw [hbase]
    simp [extractRating, hr]
  · intro hp r hr
    rw [hbase]
    simp [extractRating, hp, hr]
  · intro hp hsec
    rw [hbase]
    simp [extractRating, hp, hsec]

theorem rating_two_tier_fallback_witness :
    scrapeReview fragSecondary = .ok secondaryRec
    ∧ findPrimaryRating fragSecondary = none
    ∧ findSecondaryRating fragSecondary = some secondaryDiv
    ∧ lastLookup (statPairs fragSecondary) "Rating" = none
    ∧ getField secondaryRec "Rating" = some "8/10" := by
  refine ⟨rfl, rfl, rfl, rfl, ?_⟩
  have h := rating_two_tier_fallback fragSecondary "2023-05-01" secondaryRec rfl rfl rfl
  exact h.2.1 rfl secondaryDiv rfl

/-- C6 (corrected): the Country field is the leftmost lazy match of
`(?<=\().+?(?=\))` on the stripped status text: the shortest non-empty
newline-free run that directly follows a "(" and is directly followed by the
next ")" — nested "(" are INCLUDED in the match, so it is not the substring
from the last unmatched "(" (see the counterexample); "N/A" when the status
line is absent or no such pattern exists. -/
theorem country_paren_rule (b : Node) :
    (findStatus b = none → extractCountry b = "N/A")
    ∧ (∀ u, findStatus b = some u →
        searchParen (strip (innerText u)).data = none → extractCountry b = "N/A")
    ∧ (∀ u m, findStatus b = some u →
        searchParen (strip (innerText u)).data = some m →
        extractCountry b = String.mk m
        ∧ ∃ pre post, (strip (innerText u)).data = pre ++ '(' :: (m ++ ')' :: post)
            ∧ m ≠ [] ∧ (∀ c ∈ m, c ≠ '\n') ∧ (∀ c ∈ m.tail, c ≠ ')')) := by
  refine ⟨?_, ?_, ?_⟩
  · intro h
    simp [extractCountry, h]
  · intro u hu hm
    simp [extractCountry, hu, hm]
  · intro u m hu hm
    refine ⟨by simp [extractCountry, hu, hm], ?_⟩
    exact searchParen_sound _ m hm

theorem country_paren_rule_witness :
    findStatus fragUK = some ukStatus
    ∧ searchParen (strip (innerText ukStatus)).data = some ("United Kingdom").data
    ∧ extractCountry fragUK = "United Kingdom" := by
  refine ⟨rfl, rfl, ?_⟩
  exact ((country_paren_rule fragUK).2.2 ukStatus ("United Kingdom").data rfl rfl).1

/-- C6 counterexample: on status text "a(b(c)d)" the code extracts "b(c"
(the lazy leftmost match, nested "(" included), while the claimed
"substring between the last unmatched ( and the next )" rule — the last "("
before the first ")" — would give "c". -/
theorem country_nested_paren_counterexample :
    extractCountry fragNested = "b(c"
    ∧ specCountryClaimRule ("a(b(c)d)").data = some ("c").data
    ∧ ("b(c" : String) ≠ "c" :=
  ⟨rfl, rfl, by decide⟩

/-- C1 (corrected): with both columns present, `process_dataset` rewrites the
file with an `author_id` column of `factorize` codes over the concatenated
keys `Author + "|" + Country` and without the Author column.  Two rows get
the same identifier iff their CONCATENATED keys are equal — identical
(Author, Country) pairs always share an identifier, but distinct pairs can
collide when the components contain "|" (see the counterexample).
Identifiers are non-negative, never exceed the row index, and respect
first-appearance order: an identifier is smaller than another exactly when
its key first appears earlier scanning the rows top to bottom. -/
theorem pseudonymizer_id_assignment (df : DataFrame)
    (hA : "Author" ∈ columns df) (hC : "Country" ∈ columns df) :
    process_dataset (.ok df) =
      .written (dropCol (setCol df "author_id"
        ((factorize (pseudoKeys df)).map toString)) "Author")
    ∧ (∀ i j, i < (pseudoKeys df).length → j < (pseudoKeys df).length →
        ((factorize (pseudoKeys df)).getD i 0 = (factorize (pseudoKeys df)).getD j 0 ↔
          (pseudoKeys df).getD i "" = (pseudoKeys df).getD j ""))
    ∧ (∀ i j, i < (pseudoKeys df).length → j < (pseudoKeys df).length →
        ((factorize (pseudoKeys df)).getD i 0 < (factorize (pseudoKeys df)).getD j 0 ↔
          firstIdx ((pseudoKeys df).getD i "") (pseudoKeys df) <
            firstIdx ((pseudoKeys df).getD j "") (pseudoKeys df)))
    ∧ (∀ i, i < (pseudoKeys df).length → (factorize (pseudoKeys df)).getD i 0 ≤ i) := by
  refine ⟨?_, (factorize_spec (pseudoKeys df)).1, (factorize_spec (pseudoKeys df)).2.1,
    (factorize_spec (pseudoKeys df)).2.2⟩
  simp only [process_dataset]
  rw [if_neg (by push_neg; exact ⟨hA, hC⟩)]

theorem pseudonymizer_id_assignment_witness :
    ("Author" ∈ columns dfPseud)
    ∧ ("Country" ∈ columns dfPseud)
    ∧ process_dataset (.ok dfPseud) =
        .written [("Country", ["UK", "FR", "UK"]), ("author_id", ["0", "1", "0"])] := by
  refine ⟨by decide, by decide, ?_⟩
  have h := pseudonymizer_id_assignment dfPseud (by decide) (by decide)
  exact h.1

/-- C1 counterexample: rows ("a|b", "c") and ("a", "b|c") differ in BOTH
components, yet both factorize keys are the string "a|b|c", so both rows get
identifier 0 — refuting "rows differing in either component receive
different identifiers". -/
theorem pseudonymizer_separator_collision :
    getCol dfCollide "Author" = ["a|b", "a"]
    ∧ getCol dfCollide "Country" = ["c", "b|c"]
    ∧ ("a|b" : String) ≠ "a"
    ∧ ("c" : String) ≠ "b|c"
    ∧ pseudoKeys dfCollide = ["a|b|c", "a|b|c"]
    ∧ process_dataset (.ok dfCollide) =
        .written [("Country", ["c", "b|c"]), ("author_id", ["0", "0"])] :=
  ⟨rfl, rfl, by decide, by decide, rfl, rfl⟩
